import Mathlib

/-!
Verification of the polymarket dashboard core: the risk scorer
(backend/risk_calculator.py), the news-relevance classifier
(backend/news_analyzer.py) and the widget aggregator
(backend/aggregator.py).

Python floats are idealised as exact rationals; the transcendental
math.log10 is a parameter of every definition that uses it, so each
theorem quantifies over all implementations of it.  Python's round(x, n)
(round half to even) is modelled exactly on rationals.
-/

namespace Polymarket

/-- Round a rational to the nearest integer, ties to the even integer,
modelling Python's built-in round on exact values. -/
def rndHalfEven (x : ℚ) : ℤ :=
  let f : ℤ := ⌊x⌋
  let r : ℚ := x - f
  if r < 1/2 then f
  else if 1/2 < r then f + 1
  else if f % 2 = 0 then f else f + 1

/-- Python round(x, n): round to n decimal places, half to even. -/
def roundTo (n : ℕ) (x : ℚ) : ℚ :=
  (rndHalfEven (x * 10 ^ n) : ℚ) / 10 ^ n

/-- Result dict of calculate_risk_reward_score
(risk_calculator.py lines 55-61). -/
structure ScoreResult where
  score : ℚ
  multiplier : ℚ
  expected_value : ℚ
  kelly_fraction : ℚ
  volume_weight : ℚ
deriving DecidableEq

/-- risk_calculator.py lines 12-61.  log10 models math.log10. -/
def calculate_risk_reward_score (log10 : ℚ → ℚ)
    (probability price volume : ℚ) : ScoreResult :=
  let multiplier : ℚ := if 0 < price then 1 / price else 0
  let ev : ℚ := probability * multiplier - 1
  let kelly_fraction : ℚ :=
    if 1 < multiplier then
      let b := multiplier - 1
      let k := if 0 < b then (b * probability - (1 - probability)) / b else 0
      max 0 (min k 1)
    else 0
  let volume_weight : ℚ :=
    if 0 < volume then min (max ((log10 volume - 4) / 3) 0.1) 1.0
    else 0.1
  let score : ℚ := max 0 (multiplier - 1) * volume_weight
  { score := roundTo 6 score
    multiplier := roundTo 2 multiplier
    expected_value := roundTo 4 ev
    kelly_fraction := roundTo 4 kelly_fraction
    volume_weight := roundTo 4 volume_weight }

/-- risk_calculator.py lines 64-79. -/
def categorize_risk (probability multiplier : ℚ) : String :=
  if 0.05 ≤ probability ∧ probability ≤ 0.10 ∧ 10 ≤ multiplier ∧ multiplier ≤ 20 then
    "medium"
  else if 0.10 < probability ∧ probability ≤ 0.20 ∧ 5 ≤ multiplier ∧ multiplier ≤ 10 then
    "low"
  else if probability < 0.05 ∧ 20 < multiplier then
    "extreme"
  else if 0.60 < probability ∧ multiplier < 2 then
    "safe"
  else
    "other"

/-- risk_metrics dict after enrich_with_risk_metrics added risk_category
(risk_calculator.py lines 127-131). -/
structure RiskMetrics where
  score : ℚ
  multiplier : ℚ
  expected_value : ℚ
  kelly_fraction : ℚ
  volume_weight : ℚ
  risk_category : String
deriving DecidableEq

/-- An outcome record built by enrich_with_risk_metrics
(risk_calculator.py lines 133-139). -/
structure Outcome where
  name : String
  price : ℚ
  probability : ℚ
  volume : ℚ
  risk_metrics : RiskMetrics
deriving DecidableEq

/-- An enriched market record (risk_calculator.py lines 144-154). -/
structure Market where
  question : String
  url : String
  end_date : String
  volume : ℚ
  outcomes : List Outcome
  event_title : String
  market_id : String
  image : String
deriving DecidableEq

/-- The per-outcome body of enrich_with_risk_metrics
(risk_calculator.py lines 121-139), after the numeric parsing:
probability is set to the price, metrics are computed, and the
risk category is computed from the ROUNDED multiplier stored in
the metrics dict. -/
def enrich_outcome (log10 : ℚ → ℚ) (name : String) (price volume : ℚ) : Outcome :=
  let probability := price
  let rm := calculate_risk_reward_score log10 probability price volume
  let risk_category := categorize_risk probability rm.multiplier
  { name := name
    price := price
    probability := probability
    volume := volume
    risk_metrics :=
      { score := rm.score
        multiplier := rm.multiplier
        expected_value := rm.expected_value
        kelly_fraction := rm.kelly_fraction
        volume_weight := rm.volume_weight
        risk_category := risk_category } }

/-! News analyzer (news_analyzer.py).  Python str.lower, substring test
and str.split are modelled structurally on the character list of a
string, so that every definition evaluates by kernel reduction. -/

/-- Python str.lower (on the characters of the string). -/
def lowerStr (s : String) : String := ⟨s.data.map Char.toLower⟩

/-- Does the first list occur at the head of the second? -/
def isPre : List Char → List Char → Bool
  | [], _ => true
  | _ :: _, [] => false
  | a :: as, b :: bs => a == b && isPre as bs

/-- Python substring containment: needle occurs contiguously in the
haystack (the meaning of the in operator on strings). -/
def hasSub (needle : List Char) : List Char → Bool
  | [] => needle.isEmpty
  | c :: cs => isPre needle (c :: cs) || hasSub needle cs

/-- Accumulator form of Python str.split() (split on whitespace runs,
no empty words). -/
def wordsAux : List Char → List Char → List String
  | [], acc => if acc.isEmpty then [] else [⟨acc.reverse⟩]
  | c :: cs, acc =>
    if c.isWhitespace then
      if acc.isEmpty then wordsAux cs [] else ⟨acc.reverse⟩ :: wordsAux cs []
    else wordsAux cs (c :: acc)

/-- Python str.split() with no argument. -/
def words (s : String) : List String := wordsAux s.data []

/-- The stopword set removed from the question's words
(news_analyzer.py line 65). -/
def stopwords : Finset String :=
  (["the", "a", "an", "will", "be", "is", "in", "of", "to", "for", "on", "at"]).toFinset

/-- The judgment dict shared by both classification strategies
(news_analyzer.py lines 75-82 and 105-112). -/
structure RelevanceJudgment where
  relevance_score : ℚ
  affects_outcomes : List String
  impact_direction : String
  confidence : String
  reasoning : String
  analysis_method : String
deriving DecidableEq

/-- news_analyzer.py lines 48-82. -/
def keyword_fallback_analysis (news_title market_question : String)
    (market_outcomes : List String) : RelevanceJudgment :=
  let news_lower := lowerStr news_title
  let question_lower := lowerStr market_question
  let matching_outcomes :=
    market_outcomes.filter (fun outcome => hasSub (lowerStr outcome).data news_lower.data)
  let question_keywords : Finset String := (words question_lower).toFinset \ stopwords
  let news_keywords : Finset String := (words news_lower).toFinset
  let overlap : ℕ := (question_keywords ∩ news_keywords).card
  let relevance_score : ℚ :=
    (if matching_outcomes.isEmpty then 0 else 5) + min ((overlap : ℚ) * 0.5) 5
  { relevance_score := min relevance_score 10
    affects_outcomes := matching_outcomes
    impact_direction := "neutral"
    confidence := "low"
    reasoning := "Keyword match: " ++ toString matching_outcomes.length ++
      " outcomes, " ++ toString overlap ++ " keywords overlap"
    analysis_method := "keyword_fallback" }

/-- news_analyzer.py lines 42-45: the cache key is the md5 hexdigest of
the string news_title ++ ":" ++ market_id.  md5 is a fixed function of
its input, so two equal contents always give equal keys; the key is
modelled as the content string itself, which preserves exactly the
collisions that arise from the concatenation. -/
def get_cache_key (news_title market_id : String) : String :=
  news_title ++ ":" ++ market_id

/-- news_analyzer.py lines 85-129.  The external call is modelled by its
parsed outcome: the parameter holds the judgment parsed from the model's
JSON response, or none when the request or the JSON parse failed.  The
code stamps analysis_method and returns the parsed fields otherwise
unvalidated. -/
def analyze_with_claude (response : Option RelevanceJudgment) : Option RelevanceJudgment :=
  response.map (fun r => { r with analysis_method := "claude_ai" })

/-- The stats dict of analyze_news_relevance (news_analyzer.py lines 158-164). -/
structure ClassifyStats where
  total_analyzed : ℕ
  claude_ai : ℕ
  keyword_fallback : ℕ
  errors : ℕ
  cached : ℕ
deriving DecidableEq

/-- One (news, market) classification step of analyze_news_relevance
(news_analyzer.py lines 193-225): check the cache under the pair's key;
on a miss try the AI strategy, fall back to the keyword strategy, and
store the fresh judgment under the key.  The cache dict is an
association list whose most recent binding wins; the AI strategy's
external response (when the client is configured and the call
succeeds) is the aiResponse parameter. -/
def classify_step (aiResponse : Option RelevanceJudgment)
    (cache : List (String × RelevanceJudgment)) (stats : ClassifyStats)
    (news_title market_question market_id : String) (outcome_names : List String) :
    RelevanceJudgment × List (String × RelevanceJudgment) × ClassifyStats :=
  let cache_key := get_cache_key news_title market_id
  match cache.lookup cache_key with
  | some result =>
    (result, cache,
      { stats with cached := stats.cached + 1, total_analyzed := stats.total_analyzed + 1 })
  | none =>
    match analyze_with_claude aiResponse with
    | some result =>
      (result, (cache_key, result) :: cache,
        { stats with claude_ai := stats.claude_ai + 1,
                     total_analyzed := stats.total_analyzed + 1 })
    | none =>
      let result := keyword_fallback_analysis news_title market_question outcome_names
      (result, (cache_key, result) :: cache,
        { stats with keyword_fallback := stats.keyword_fallback + 1,
                     total_analyzed := stats.total_analyzed + 1 })

/-! Aggregator (aggregator.py).  Python's sorted(key, reverse=True) is a
stable descending sort by the key; it is modelled by insertion sort with
the relation that puts the element being inserted (the earlier one in
traversal order) before every element whose key is not larger. -/

/-- The relation of a stable descending sort by a rational key. -/
def keyGe {α : Type} (key : α → ℚ) (a b : α) : Prop := key b ≤ key a

instance keyGeDecRel {α : Type} (key : α → ℚ) : DecidableRel (keyGe key) :=
  fun a b => inferInstanceAs (Decidable (key b ≤ key a))

instance keyGeTotal {α : Type} (key : α → ℚ) : IsTotal α (keyGe key) :=
  ⟨fun a b => le_total (key b) (key a)⟩

instance keyGeTrans {α : Type} (key : α → ℚ) : IsTrans α (keyGe key) :=
  ⟨fun _ _ _ h1 h2 => le_trans h2 h1⟩

/-- An entry of the risk categories widget (aggregator.py lines 25-36). -/
structure RiskEntry where
  market_title : String
  market_url : String
  market_end_date : String
  outcome_name : String
  probability : ℚ
  multiplier : ℚ
  score : ℚ
  risk_category : String
  volume : ℚ
  image : String
deriving DecidableEq

/-- The dict appended for a medium or low outcome (aggregator.py lines 25-36). -/
def riskEntryOf (market : Market) (outcome : Outcome) : RiskEntry :=
  { market_title := market.question
    market_url := market.url
    market_end_date := market.end_date
    outcome_name := outcome.name
    probability := outcome.probability
    multiplier := outcome.risk_metrics.multiplier
    score := outcome.risk_metrics.score
    risk_category := outcome.risk_metrics.risk_category
    volume := outcome.volume
    image := market.image }

/-- The all_outcomes list of build_risk_categories_widget
(aggregator.py lines 17-36). -/
def allRiskOutcomes (markets_data : List Market) : List RiskEntry :=
  markets_data.flatMap (fun market =>
    market.outcomes.filterMap (fun outcome =>
      if outcome.risk_metrics.risk_category = "medium" ∨
          outcome.risk_metrics.risk_category = "low" then
        some (riskEntryOf market outcome)
      else none))

/-- Return value of build_risk_categories_widget (aggregator.py lines 51-54). -/
structure RiskWidget where
  medium_risk : List RiskEntry
  low_risk : List RiskEntry
deriving DecidableEq

/-- aggregator.py lines 13-54. -/
def build_risk_categories_widget (markets_data : List Market) : RiskWidget :=
  let all_outcomes := allRiskOutcomes markets_data
  { medium_risk :=
      ((all_outcomes.filter (fun o => o.risk_category == "medium")).insertionSort
        (keyGe RiskEntry.score)).take 5
    low_risk :=
      ((all_outcomes.filter (fun o => o.risk_category == "low")).insertionSort
        (keyGe RiskEntry.score)).take 5 }

/-- An entry of news_market_mapping (news_analyzer.py lines 229-242). -/
structure MappingItem where
  news_id : ℕ
  news_title : String
  news_link : String
  market_id : String
  market_question : String
  market_url : String
  relevance_score : ℚ
  affects_outcomes : List String
  impact_direction : String
  confidence : String
  reasoning : String
  analysis_method : String
deriving DecidableEq

/-- An entry of the news feed widget (aggregator.py lines 84-94). -/
structure NewsEntry where
  news_title : String
  news_link : String
  market_title : String
  market_url : String
  relevance_score : ℚ
  affects_outcomes : List String
  impact_direction : String
  confidence : String
  reasoning : String
deriving DecidableEq

/-- Keys of the news_by_market dict in first-occurrence order
(aggregator.py lines 67-72: Python dicts iterate in insertion order). -/
def firstKeys : List String → List String
  | [] => []
  | k :: ks => k :: (firstKeys ks).filter (fun x => x != k)

/-- Python max(list, key=relevance_score): the first element attaining
the maximum key wins (aggregator.py line 78). -/
def maxByRel (best : MappingItem) : List MappingItem → MappingItem
  | [] => best
  | x :: xs =>
    if best.relevance_score < x.relevance_score then maxByRel x xs else maxByRel best xs

/-- The dict appended for a market's best news (aggregator.py lines 84-94). -/
def mkNewsEntry (best_news : MappingItem) (market : Market) : NewsEntry :=
  { news_title := best_news.news_title
    news_link := best_news.news_link
    market_title := market.question
    market_url := market.url
    relevance_score := best_news.relevance_score
    affects_outcomes := best_news.affects_outcomes
    impact_direction := best_news.impact_direction
    confidence := best_news.confidence
    reasoning := best_news.reasoning }

/-- aggregator.py lines 60-99, taking the news_market_mapping list of
the news_analysis dict directly.  Grouping by a Python dict is modelled
by the keys in first-occurrence order with each group read off by a
filter, which preserves both orders. -/
def build_news_feed_widget (news_mapping : List MappingItem)
    (markets_data : List Market) : List NewsEntry :=
  let keys := firstKeys (news_mapping.map (fun item => item.market_id))
  let top_news := keys.filterMap (fun market_id =>
    match news_mapping.filter (fun item => item.market_id == market_id) with
    | [] => none
    | g :: gs =>
      let best_news := maxByRel g gs
      (markets_data.find? (fun m => m.market_id == market_id)).map
        (fun market => mkNewsEntry best_news market))
  (top_news.insertionSort (keyGe NewsEntry.relevance_score)).take 10

/-- The mapping items build_news_feed_widget selects, one per distinct
market_id in first-occurrence order: the first highest-relevance item
of that market's group (used to state what the widget returns). -/
def bestJudgments (news_mapping : List MappingItem) : List MappingItem :=
  (firstKeys (news_mapping.map (fun item => item.market_id))).filterMap
    (fun market_id =>
      match news_mapping.filter (fun item => item.market_id == market_id) with
      | [] => none
      | g :: gs => some (maxByRel g gs))

/-- The medium bucket condition of categorize_risk. -/
def medCond (p m : ℚ) : Prop := 0.05 ≤ p ∧ p ≤ 0.10 ∧ 10 ≤ m ∧ m ≤ 20

/-- The low bucket condition of categorize_risk. -/
def lowCond (p m : ℚ) : Prop := 0.10 < p ∧ p ≤ 0.20 ∧ 5 ≤ m ∧ m ≤ 10

/-- The extreme bucket condition of categorize_risk. -/
def extCond (p m : ℚ) : Prop := p < 0.05 ∧ 20 < m

/-- The safe bucket condition of categorize_risk. -/
def safeCond (p m : ℚ) : Prop := 0.60 < p ∧ m < 2

/-! Rounding lemmas. -/

theorem rndHalfEven_ge {a : ℤ} {x : ℚ} (h : (a : ℚ) ≤ x) : a ≤ rndHalfEven x := by
  have hf : a ≤ ⌊x⌋ := Int.le_floor.mpr h
  simp only [rndHalfEven]
  split_ifs <;> omega

theorem rndHalfEven_le {b : ℤ} {x : ℚ} (h : x ≤ (b : ℚ)) : rndHalfEven x ≤ b := by
  have hfb : ⌊x⌋ ≤ b := by
    have h1 := Int.floor_le_floor h
    simpa using h1
  have hfx : (⌊x⌋ : ℚ) ≤ x := Int.floor_le x
  simp only [rndHalfEven]
  split_ifs with h1 h2 h3
  · exact hfb
  · have hx : (⌊x⌋ : ℚ) < x := by linarith
    have hb : ⌊x⌋ < b := by exact_mod_cast lt_of_lt_of_le hx h
    omega
  · exact hfb
  · have hr : (1:ℚ)/2 ≤ x - ⌊x⌋ := le_of_not_lt h1
    have hx : (⌊x⌋ : ℚ) < x := by linarith
    have hb : ⌊x⌋ < b := by exact_mod_cast lt_of_lt_of_le hx h
    omega

theorem roundTo_ge {n : ℕ} {a : ℤ} {x : ℚ} (h : (a : ℚ) ≤ x * 10 ^ n) :
    (a : ℚ) / 10 ^ n ≤ roundTo n x := by
  have h1 := rndHalfEven_ge h
  have h10 : (0:ℚ) < 10 ^ n := by positivity
  exact (div_le_div_iff_of_pos_right h10).mpr (by exact_mod_cast h1)

theorem roundTo_le {n : ℕ} {b : ℤ} {x : ℚ} (h : x * 10 ^ n ≤ (b : ℚ)) :
    roundTo n x ≤ (b : ℚ) / 10 ^ n := by
  have h1 := rndHalfEven_le h
  have h10 : (0:ℚ) < 10 ^ n := by positivity
  exact (div_le_div_iff_of_pos_right h10).mpr (by exact_mod_cast h1)

theorem roundTo_zero (n : ℕ) : roundTo n 0 = 0 := by
  have h0 : rndHalfEven 0 = 0 := by
    simp only [rndHalfEven]
    norm_num
  simp [roundTo, h0]

/-! Bucket disjointness. -/

theorem med_low_disj (p m : ℚ) : ¬ (medCond p m ∧ lowCond p m) := by
  rintro ⟨⟨_, h2, _, _⟩, ⟨g1, _, _, _⟩⟩; linarith

theorem med_ext_disj (p m : ℚ) : ¬ (medCond p m ∧ extCond p m) := by
  rintro ⟨⟨h1, _, _, _⟩, ⟨g1, _⟩⟩; linarith

theorem med_safe_disj (p m : ℚ) : ¬ (medCond p m ∧ safeCond p m) := by
  rintro ⟨⟨_, h2, _, _⟩, ⟨g1, _⟩⟩; linarith

theorem low_ext_disj (p m : ℚ) : ¬ (lowCond p m ∧ extCond p m) := by
  rintro ⟨⟨h1, _, _, _⟩, ⟨g1, _⟩⟩; linarith

theorem low_safe_disj (p m : ℚ) : ¬ (lowCond p m ∧ safeCond p m) := by
  rintro ⟨⟨_, h2, _, _⟩, ⟨g1, _⟩⟩; linarith

theorem ext_safe_disj (p m : ℚ) : ¬ (extCond p m ∧ safeCond p m) := by
  rintro ⟨⟨h1, _⟩, ⟨g1, _⟩⟩; linarith

/-- C1 counterexample: at probability = price = 0.07 and volume =
100000 (where log10 is exactly 5, also in floating point), the returned
multiplier is not 1/price, the returned volume_weight is not
clamp((log10 volume - 4)/3, 0.1, 1.0) = 1/3, and the returned score is
not max(0, multiplier - 1) * volume_weight: each returned field is a
decimal rounding of that quantity (to 2, 4 and 6 places respectively),
so the claimed exact equalities fail. -/
theorem C1_as_stated_counterexample :
    (calculate_risk_reward_score (fun _ => 5) (7/100) (7/100) 100000).multiplier
        ≠ 1 / (7/100 : ℚ) ∧
    (calculate_risk_reward_score (fun _ => 5) (7/100) (7/100) 100000).volume_weight
        ≠ min (max (((5:ℚ) - 4) / 3) 0.1) 1.0 ∧
    (calculate_risk_reward_score (fun _ => 5) (7/100) (7/100) 100000).score
        ≠ max 0 (1 / (7/100 : ℚ) - 1) * min (max (((5:ℚ) - 4) / 3) 0.1) 1.0 := by
  refine ⟨?_, ?_, ?_⟩ <;> with_unfolding_all decide

/-- C1 (amended): for every probability, price and volume, and every
implementation of log10, calculate_risk_reward_score returns the
2-decimal rounding of multiplier = 1/price when price > 0 and of 0 when
price <= 0 (never infinite), the 4-decimal rounding of volume_weight =
clamp((log10(volume) - 4)/3, 0.1, 1.0) when volume > 0 and of 0.1
otherwise, and the 6-decimal rounding of score = max(0, multiplier - 1)
* volume_weight computed from the unrounded multiplier and
volume_weight; consequently the returned score is >= 0 and the returned
volume_weight lies in [0.1, 1.0]. -/
theorem C1_rounded_fields (log10 : ℚ → ℚ) (probability price volume : ℚ) :
    (calculate_risk_reward_score log10 probability price volume).multiplier
      = roundTo 2 (if 0 < price then 1 / price else 0) ∧
    (calculate_risk_reward_score log10 probability price volume).volume_weight
      = roundTo 4 (if 0 < volume then min (max ((log10 volume - 4) / 3) 0.1) 1.0 else 0.1) ∧
    (calculate_risk_reward_score log10 probability price volume).score
      = roundTo 6 (max 0 ((if 0 < price then 1 / price else 0) - 1) *
          (if 0 < volume then min (max ((log10 volume - 4) / 3) 0.1) 1.0 else 0.1)) ∧
    0 ≤ (calculate_risk_reward_score log10 probability price volume).score ∧
    0.1 ≤ (calculate_risk_reward_score log10 probability price volume).volume_weight ∧
    (calculate_risk_reward_score log10 probability price volume).volume_weight ≤ 1 := by
  have hw01 : (0.1:ℚ) ≤
      (if 0 < volume then min (max ((log10 volume - 4) / 3) 0.1) 1.0 else 0.1) := by
    split_ifs
    · exact le_min (le_max_right _ _) (by norm_num)
    · exact le_rfl
  have hw1 :
      (if 0 < volume then min (max ((log10 volume - 4) / 3) 0.1) 1.0 else 0.1) ≤ 1 := by
    split_ifs
    · exact le_trans (min_le_right _ _) (by norm_num)
    · norm_num
  refine ⟨rfl, rfl, rfl, ?_, ?_, ?_⟩
  · show 0 ≤ roundTo 6 (max 0 ((if 0 < price then 1 / price else 0) - 1) *
        (if 0 < volume then min (max ((log10 volume - 4) / 3) 0.1) 1.0 else 0.1))
    have hX : (0:ℚ) ≤ max 0 ((if 0 < price then 1 / price else 0) - 1) *
        (if 0 < volume then min (max ((log10 volume - 4) / 3) 0.1) 1.0 else 0.1) :=
      mul_nonneg (le_max_left _ _) (le_trans (by norm_num) hw01)
    have h6 : ((0:ℤ):ℚ) ≤ (max 0 ((if 0 < price then 1 / price else 0) - 1) *
        (if 0 < volume then min (max ((log10 volume - 4) / 3) 0.1) 1.0 else 0.1)) * 10 ^ 6 := by
      push_cast
      exact mul_nonneg hX (by positivity)
    have h := roundTo_ge h6
    simpa using h
  · show (0.1:ℚ) ≤ roundTo 4
        (if 0 < volume then min (max ((log10 volume - 4) / 3) 0.1) 1.0 else 0.1)
    have h4 : ((1000:ℤ):ℚ) ≤
        (if 0 < volume then min (max ((log10 volume - 4) / 3) 0.1) 1.0 else 0.1) * 10 ^ 4 := by
      push_cast
      nlinarith [hw01]
    have h := roundTo_ge h4
    calc (0.1:ℚ) = ((1000:ℤ):ℚ) / 10 ^ 4 := by norm_num
    _ ≤ _ := h
  · show roundTo 4
        (if 0 < volume then min (max ((log10 volume - 4) / 3) 0.1) 1.0 else 0.1) ≤ 1
    have h4 : (if 0 < volume then min (max ((log10 volume - 4) / 3) 0.1) 1.0 else 0.1)
        * 10 ^ 4 ≤ ((10000:ℤ):ℚ) := by
      push_cast
      nlinarith [hw1]
    have h := roundTo_le h4
    calc roundTo 4 (if 0 < volume then min (max ((log10 volume - 4) / 3) 0.1) 1.0 else 0.1)
        ≤ ((10000:ℤ):ℚ) / 10 ^ 4 := h
    _ = 1 := by norm_num

/-- C2: categorize_risk always returns one of the five bucket names;
each of the four named buckets is returned exactly on its threshold
region, and the four regions are pairwise disjoint, so the result does
not depend on the order in which the else-chain tests them. -/
theorem C2_categorize_buckets (p m : ℚ) :
    (categorize_risk p m = "medium" ↔ medCond p m) ∧
    (categorize_risk p m = "low" ↔ lowCond p m) ∧
    (categorize_risk p m = "extreme" ↔ extCond p m) ∧
    (categorize_risk p m = "safe" ↔ safeCond p m) ∧
    (categorize_risk p m = "other" ↔
      ¬ medCond p m ∧ ¬ lowCond p m ∧ ¬ extCond p m ∧ ¬ safeCond p m) ∧
    (categorize_risk p m = "medium" ∨ categorize_risk p m = "low" ∨
      categorize_risk p m = "extreme" ∨ categorize_risk p m = "safe" ∨
      categorize_risk p m = "other") ∧
    ¬ (medCond p m ∧ lowCond p m) ∧ ¬ (medCond p m ∧ extCond p m) ∧
    ¬ (medCond p m ∧ safeCond p m) ∧ ¬ (lowCond p m ∧ extCond p m) ∧
    ¬ (lowCond p m ∧ safeCond p m) ∧ ¬ (extCond p m ∧ safeCond p m) := by
  unfold categorize_risk
  split_ifs with h1 h2 h3 h4
  · exact ⟨iff_of_true rfl h1,
      iff_of_false (by decide) (fun hl => med_low_disj p m ⟨h1, hl⟩),
      iff_of_false (by decide) (fun he => med_ext_disj p m ⟨h1, he⟩),
      iff_of_false (by decide) (fun hs => med_safe_disj p m ⟨h1, hs⟩),
      iff_of_false (by decide) (fun ho => ho.1 h1),
      Or.inl rfl,
      med_low_disj p m, med_ext_disj p m, med_safe_disj p m,
      low_ext_disj p m, low_safe_disj p m, ext_safe_disj p m⟩
  · exact ⟨iff_of_false (by decide) h1,
      iff_of_true rfl h2,
      iff_of_false (by decide) (fun he => low_ext_disj p m ⟨h2, he⟩),
      iff_of_false (by decide) (fun hs => low_safe_disj p m ⟨h2, hs⟩),
      iff_of_false (by decide) (fun ho => ho.2.1 h2),
      Or.inr (Or.inl rfl),
      med_low_disj p m, med_ext_disj p m, med_safe_disj p m,
      low_ext_disj p m, low_safe_disj p m, ext_safe_disj p m⟩
  · exact ⟨iff_of_false (by decide) h1,
      iff_of_false (by decide) h2,
      iff_of_true rfl h3,
      iff_of_false (by decide) (fun hs => ext_safe_disj p m ⟨h3, hs⟩),
      iff_of_false (by decide) (fun ho => ho.2.2.1 h3),
      Or.inr (Or.inr (Or.inl rfl)),
      med_low_disj p m, med_ext_disj p m, med_safe_disj p m,
      low_ext_disj p m, low_safe_disj p m, ext_safe_disj p m⟩
  · exact ⟨iff_of_false (by decide) h1,
      iff_of_false (by decide) h2,
      iff_of_false (by decide) h3,
      iff_of_true rfl h4,
      iff_of_false (by decide) (fun ho => ho.2.2.2 h4),
      Or.inr (Or.inr (Or.inr (Or.inl rfl))),
      med_low_disj p m, med_ext_disj p m, med_safe_disj p m,
      low_ext_disj p m, low_safe_disj p m, ext_safe_disj p m⟩
  · exact ⟨iff_of_false (by decide) h1,
      iff_of_false (by decide) h2,
      iff_of_false (by decide) h3,
      iff_of_false (by decide) h4,
      iff_of_true rfl ⟨h1, h2, h3, h4⟩,
      Or.inr (Or.inr (Or.inr (Or.inr rfl))),
      med_low_disj p m, med_ext_disj p m, med_safe_disj p m,
      low_ext_disj p m, low_safe_disj p m, ext_safe_disj p m⟩

/-- C3: for every probability in [0,1] and price in [0,1] (and any
volume and log10), the kelly_fraction returned by
calculate_risk_reward_score lies in [0,1], and it is 0 whenever
b = multiplier - 1 <= 0. -/
theorem C3_kelly_clamped (log10 : ℚ → ℚ) (probability price volume : ℚ)
    (_hp0 : 0 ≤ probability) (_hp1 : probability ≤ 1)
    (_hq0 : 0 ≤ price) (_hq1 : price ≤ 1) :
    0 ≤ (calculate_risk_reward_score log10 probability price volume).kelly_fraction ∧
    (calculate_risk_reward_score log10 probability price volume).kelly_fraction ≤ 1 ∧
    ((if 0 < price then 1 / price else 0) - 1 ≤ 0 →
      (calculate_risk_reward_score log10 probability price volume).kelly_fraction = 0) := by
  have hk0 : (0:ℚ) ≤ (if 1 < (if 0 < price then 1 / price else 0) then
      max 0 (min (if 0 < (if 0 < price then 1 / price else 0) - 1 then
        (((if 0 < price then 1 / price else 0) - 1) * probability - (1 - probability)) /
          ((if 0 < price then 1 / price else 0) - 1) else 0) 1) else 0) := by
    split_ifs <;> first
      | exact le_max_left _ _
      | exact le_rfl
  have hk1 : (if 1 < (if 0 < price then 1 / price else 0) then
      max 0 (min (if 0 < (if 0 < price then 1 / price else 0) - 1 then
        (((if 0 < price then 1 / price else 0) - 1) * probability - (1 - probability)) /
          ((if 0 < price then 1 / price else 0) - 1) else 0) 1) else 0) ≤ 1 := by
    split_ifs <;> first
      | exact max_le (by norm_num) (min_le_right _ _)
      | norm_num
  refine ⟨?_, ?_, ?_⟩
  · show 0 ≤ roundTo 4 _
    have h4 : ((0:ℤ):ℚ) ≤ (if 1 < (if 0 < price then 1 / price else 0) then
        max 0 (min (if 0 < (if 0 < price then 1 / price else 0) - 1 then
          (((if 0 < price then 1 / price else 0) - 1) * probability - (1 - probability)) /
            ((if 0 < price then 1 / price else 0) - 1) else 0) 1) else 0) * 10 ^ 4 := by
      push_cast
      exact mul_nonneg hk0 (by positivity)
    have h := roundTo_ge h4
    simpa using h
  · show roundTo 4 _ ≤ 1
    have h4 : (if 1 < (if 0 < price then 1 / price else 0) then
        max 0 (min (if 0 < (if 0 < price then 1 / price else 0) - 1 then
          (((if 0 < price then 1 / price else 0) - 1) * probability - (1 - probability)) /
            ((if 0 < price then 1 / price else 0) - 1) else 0) 1) else 0) * 10 ^ 4
        ≤ ((10000:ℤ):ℚ) := by
      push_cast
      nlinarith [hk1]
    have h := roundTo_le h4
    calc roundTo 4 _ ≤ ((10000:ℤ):ℚ) / 10 ^ 4 := h
    _ = 1 := by norm_num
  · intro hb
    have hm : ¬ (1 < (if 0 < price then 1 / price else 0)) := by linarith
    show roundTo 4 (if 1 < (if 0 < price then 1 / price else 0) then _ else 0) = 0
    rw [if_neg hm]
    exact roundTo_zero 4

/-- C3 witness at probability = 1/2, price = 1, volume = 0: the
hypotheses hold, the multiplier is 1 so b = 0 <= 0, and the returned
kelly fraction is 0 and inside [0,1]. -/
theorem C3_kelly_clamped_witness :
    (0:ℚ) ≤ 1/2 ∧ (1/2:ℚ) ≤ 1 ∧ (0:ℚ) ≤ 1 ∧ (1:ℚ) ≤ 1 ∧
    (0 ≤ (calculate_risk_reward_score (fun _ => 0) (1/2) 1 0).kelly_fraction ∧
      (calculate_risk_reward_score (fun _ => 0) (1/2) 1 0).kelly_fraction ≤ 1 ∧
      ((if (0:ℚ) < 1 then 1 / (1:ℚ) else 0) - 1 ≤ 0 →
        (calculate_risk_reward_score (fun _ => 0) (1/2) 1 0).kelly_fraction = 0)) :=
  ⟨by norm_num, by norm_num, by norm_num, by norm_num,
    C3_kelly_clamped (fun _ => 0) (1/2) 1 0 (by norm_num) (by norm_num)
      (by norm_num) (by norm_num)⟩

/-- C9: enrich_with_risk_metrics computes the risk category from the
multiplier rounded to 2 decimal places (the value stored in the metrics
dict), not from the exact 1/price; at price = 250/5001 the exact
multiplier is 20.004, so categorize_risk on the exact value gives
extreme while the pipeline stores other. -/
theorem C9_category_from_rounded_multiplier (log10 : ℚ → ℚ) (name : String)
    (price volume : ℚ) :
    ((enrich_outcome log10 name price volume).risk_metrics.risk_category
      = categorize_risk price
          ((calculate_risk_reward_score log10 price price volume).multiplier)) ∧
    ((calculate_risk_reward_score log10 price price volume).multiplier
      = roundTo 2 (if 0 < price then 1 / price else 0)) ∧
    (enrich_outcome (fun _ => 0) "x" (250/5001) 0).risk_metrics.risk_category = "other" ∧
    categorize_risk (250/5001) (1 / (250/5001 : ℚ)) = "extreme" :=
  ⟨rfl, rfl, by with_unfolding_all decide, by with_unfolding_all decide⟩

/-- C4: the keyword strategy returns as affects_outcomes exactly the
outcome names whose lower-cased text occurs in the lower-cased title;
its relevance score is (5 if any outcome matched else 0) plus 0.5 per
token shared between the question's words minus the stopwords and the
title's words capped at +5, all capped at 10; the direction is always
neutral and the confidence always low; and on the Bitcoin example no
outcome name matches, so affects_outcomes is empty. -/
theorem C4_keyword_strategy (news_title market_question : String)
    (market_outcomes : List String) :
    (keyword_fallback_analysis news_title market_question market_outcomes).affects_outcomes
      = market_outcomes.filter
          (fun outcome => hasSub (lowerStr outcome).data (lowerStr news_title).data) ∧
    (keyword_fallback_analysis news_title market_question market_outcomes).relevance_score
      = min ((if (market_outcomes.filter (fun outcome =>
              hasSub (lowerStr outcome).data (lowerStr news_title).data)).isEmpty
            then 0 else 5) +
          min (((((words (lowerStr market_question)).toFinset \ stopwords)
              ∩ (words (lowerStr news_title)).toFinset).card : ℚ) * 0.5) 5) 10 ∧
    (keyword_fallback_analysis news_title market_question market_outcomes).impact_direction
      = "neutral" ∧
    (keyword_fallback_analysis news_title market_question market_outcomes).confidence
      = "low" ∧
    (keyword_fallback_analysis "Bitcoin surges" "Will Bitcoin reach $100k?"
        ["Yes", "No"]).affects_outcomes = [] :=
  ⟨rfl, rfl, rfl, rfl, by decide⟩

/-- C5 counterexample: the AI strategy stores the model's
affects_outcomes unvalidated, so a response naming "Bogus" yields a
classifier judgment whose affects_outcomes is not a subset of the
market's outcome names ["Yes", "No"]. -/
theorem C5_as_stated_counterexample :
    (classify_step (some
        { relevance_score := 8, affects_outcomes := ["Bogus"],
          impact_direction := "positive", confidence := "high",
          reasoning := "r", analysis_method := "" })
        [] ⟨0, 0, 0, 0, 0⟩ "t" "q" "m" ["Yes", "No"]).1.affects_outcomes = ["Bogus"] ∧
    "Bogus" ∉ (["Yes", "No"] : List String) :=
  ⟨rfl, by decide⟩

/-- C5 (amended): every judgment produced by the keyword strategy has
affects_outcomes contained in the given outcome names; the AI strategy
returns the parsed model response unvalidated, so its judgments (and
hence AI-derived entries of news_market_mapping) need not satisfy the
subset property. -/
theorem C5_keyword_subset (news_title market_question : String)
    (market_outcomes : List String) :
    ∀ x ∈ (keyword_fallback_analysis news_title market_question
        market_outcomes).affects_outcomes, x ∈ market_outcomes := by
  intro x hx
  exact List.mem_of_mem_filter hx

/-- C5 witness: on title "yes please" with outcomes ["Yes"], the
keyword strategy marks "Yes" as affected, and the amended theorem
places it inside the outcome list. -/
theorem C5_keyword_subset_witness :
    "Yes" ∈ (keyword_fallback_analysis "yes please" "q" ["Yes"]).affects_outcomes ∧
    "Yes" ∈ ["Yes"] :=
  ⟨by decide, C5_keyword_subset "yes please" "q" ["Yes"] "Yes" (by decide)⟩

/-- Classifying any pair whose cache key equals the key of the pair
just classified is served from the cache: it returns the first
judgment, leaves the cache unchanged and moves only the cached and
total counters, whatever the AI strategy would return this time; and
the first judgment sits in the cache under the first pair's key when
the first call returns. -/
theorem classify_step_hits_cache (ai1 ai2 : Option RelevanceJudgment)
    (cache : List (String × RelevanceJudgment)) (stats : ClassifyStats)
    (t1 q1 mid1 : String) (outs1 : List String)
    (t2 q2 mid2 : String) (outs2 : List String)
    (hkey : get_cache_key t2 mid2 = get_cache_key t1 mid1) :
    (classify_step ai2 (classify_step ai1 cache stats t1 q1 mid1 outs1).2.1
        (classify_step ai1 cache stats t1 q1 mid1 outs1).2.2 t2 q2 mid2 outs2).1
      = (classify_step ai1 cache stats t1 q1 mid1 outs1).1 ∧
    (classify_step ai2 (classify_step ai1 cache stats t1 q1 mid1 outs1).2.1
        (classify_step ai1 cache stats t1 q1 mid1 outs1).2.2 t2 q2 mid2 outs2).2.1
      = (classify_step ai1 cache stats t1 q1 mid1 outs1).2.1 ∧
    (classify_step ai2 (classify_step ai1 cache stats t1 q1 mid1 outs1).2.1
        (classify_step ai1 cache stats t1 q1 mid1 outs1).2.2 t2 q2 mid2 outs2).2.2
      = { (classify_step ai1 cache stats t1 q1 mid1 outs1).2.2 with
          cached := (classify_step ai1 cache stats t1 q1 mid1 outs1).2.2.cached + 1,
          total_analyzed :=
            (classify_step ai1 cache stats t1 q1 mid1 outs1).2.2.total_analyzed + 1 } ∧
    (classify_step ai1 cache stats t1 q1 mid1 outs1).2.1.lookup
        (get_cache_key t1 mid1)
      = some (classify_step ai1 cache stats t1 q1 mid1 outs1).1 := by
  cases h : cache.lookup (get_cache_key t1 mid1) with
  | some r =>
    simp [classify_step, h, hkey]
  | none =>
    cases hai : analyze_with_claude ai1 with
    | some res =>
      simp [classify_step, h, hai, hkey, List.lookup]
    | none =>
      simp [classify_step, h, hai, hkey, List.lookup]

/-- C6: classifying the same (news_title, market_id) pair a second time
returns a judgment identical to the first; the second call is served
from the cache, independent of what either strategy would now return,
with only the cached (and total) counters advancing; and the fresh
judgment was stored under the pair's cache key before the first call
returned. -/
theorem C6_cache_idempotent (ai1 ai2 : Option RelevanceJudgment)
    (cache : List (String × RelevanceJudgment)) (stats : ClassifyStats)
    (t q mid : String) (outs : List String) :
    (classify_step ai2 (classify_step ai1 cache stats t q mid outs).2.1
        (classify_step ai1 cache stats t q mid outs).2.2 t q mid outs).1
      = (classify_step ai1 cache stats t q mid outs).1 ∧
    (classify_step ai2 (classify_step ai1 cache stats t q mid outs).2.1
        (classify_step ai1 cache stats t q mid outs).2.2 t q mid outs).2.1
      = (classify_step ai1 cache stats t q mid outs).2.1 ∧
    (classify_step ai2 (classify_step ai1 cache stats t q mid outs).2.1
        (classify_step ai1 cache stats t q mid outs).2.2 t q mid outs).2.2
      = { (classify_step ai1 cache stats t q mid outs).2.2 with
          cached := (classify_step ai1 cache stats t q mid outs).2.2.cached + 1,
          total_analyzed :=
            (classify_step ai1 cache stats t q mid outs).2.2.total_analyzed + 1 } ∧
    (classify_step ai1 cache stats t q mid outs).2.1.lookup (get_cache_key t mid)
      = some (classify_step ai1 cache stats t q mid outs).1 :=
  classify_step_hits_cache ai1 ai2 cache stats t q mid outs t q mid outs rfl

/-- C10: the cache key is computed from the concatenation news_title ++
":" ++ market_id, so the distinct pairs ("a:b", "c") and ("a", "b:c")
collide; after classifying the first pair, classifying the second pair
is served from the cache: the first pair's judgment is returned without
invoking either strategy, whatever the AI strategy would return. -/
theorem C10_cache_key_not_injective (ai1 ai2 : Option RelevanceJudgment)
    (cache : List (String × RelevanceJudgment)) (stats : ClassifyStats)
    (q1 q2 : String) (outs1 outs2 : List String) :
    get_cache_key "a:b" "c" = get_cache_key "a" "b:c" ∧
    (("a:b", "c") : String × String) ≠ ("a", "b:c") ∧
    (classify_step ai2 (classify_step ai1 cache stats "a:b" q1 "c" outs1).2.1
        (classify_step ai1 cache stats "a:b" q1 "c" outs1).2.2 "a" q2 "b:c" outs2).1
      = (classify_step ai1 cache stats "a:b" q1 "c" outs1).1 ∧
    (classify_step ai2 (classify_step ai1 cache stats "a:b" q1 "c" outs1).2.1
        (classify_step ai1 cache stats "a:b" q1 "c" outs1).2.2 "a" q2 "b:c" outs2).2.1
      = (classify_step ai1 cache stats "a:b" q1 "c" outs1).2.1 ∧
    (classify_step ai2 (classify_step ai1 cache stats "a:b" q1 "c" outs1).2.1
        (classify_step ai1 cache stats "a:b" q1 "c" outs1).2.2 "a" q2 "b:c" outs2).2.2
      = { (classify_step ai1 cache stats "a:b" q1 "c" outs1).2.2 with
          cached := (classify_step ai1 cache stats "a:b" q1 "c" outs1).2.2.cached + 1,
          total_analyzed :=
            (classify_step ai1 cache stats "a:b" q1 "c" outs1).2.2.total_analyzed + 1 } := by
  have h := classify_step_hits_cache ai1 ai2 cache stats "a:b" q1 "c" outs1
    "a" q2 "b:c" outs2 (by decide)
  exact ⟨by decide, by decide, h.1, h.2.1, h.2.2.1⟩

/-! Stable descending sort lemmas. -/

theorem sorted_take_drop {α : Type} {r : α → α → Prop} {l : List α}
    (h : List.Pairwise r l) (n : ℕ) :
    ∀ x ∈ l.take n, ∀ y ∈ l.drop n, r x y := by
  have h2 : List.Pairwise r (l.take n ++ l.drop n) := by
    rw [List.take_append_drop]; exact h
  exact (List.pairwise_append.mp h2).2.2

theorem filter_orderedInsert_keyEq {α : Type} (key : α → ℚ) (s : ℚ) (a : α) :
    ∀ l : List α,
      (List.orderedInsert (keyGe key) a l).filter (fun e => decide (key e = s))
        = ((a :: l).filter (fun e => decide (key e = s)))
  | [] => rfl
  | b :: bs => by
    by_cases hab : keyGe key a b
    · rw [List.orderedInsert, if_pos hab]
    · rw [List.orderedInsert, if_neg hab]
      have hlt : key a < key b := lt_of_not_le hab
      have ih := filter_orderedInsert_keyEq key s a bs
      by_cases hbs : key b = s <;> by_cases has : key a = s
      · exfalso; rw [hbs, has] at hlt; exact lt_irrefl s hlt
      · simp [List.filter_cons, hbs, has, ih]
      · simp [List.filter_cons, hbs, has, ih]
      · simp [List.filter_cons, hbs, has, ih]

theorem filter_insertionSort_keyEq {α : Type} (key : α → ℚ) (s : ℚ) :
    ∀ l : List α,
      (List.insertionSort (keyGe key) l).filter (fun e => decide (key e = s))
        = l.filter (fun e => decide (key e = s))
  | [] => rfl
  | a :: l => by
    rw [List.insertionSort, filter_orderedInsert_keyEq key s a (List.insertionSort _ l),
      List.filter_cons, List.filter_cons, filter_insertionSort_keyEq key s l]

/-- Behaviour of take n of the stable descending sort by a rational
key: at most n entries, pairwise descending, every kept element's key
at least every dropped element's key, and within each key value the
kept elements are an initial segment of the input's elements with that
key, in input order. -/
theorem take_sortDesc_spec {α : Type} (key : α → ℚ) (l : List α) (n : ℕ) :
    ((List.insertionSort (keyGe key) l).take n).length ≤ n ∧
    List.Pairwise (keyGe key) ((List.insertionSort (keyGe key) l).take n) ∧
    (∀ x ∈ (List.insertionSort (keyGe key) l).take n, ∀ y ∈ l,
      y ∉ (List.insertionSort (keyGe key) l).take n → key y ≤ key x) ∧
    (∀ s : ℚ, ∃ t, l.filter (fun e => decide (key e = s))
      = (((List.insertionSort (keyGe key) l).take n).filter
          (fun e => decide (key e = s))) ++ t) := by
  have hperm := List.perm_insertionSort (keyGe key) l
  have hsorted : List.Pairwise (keyGe key) (List.insertionSort (keyGe key) l) :=
    List.sorted_insertionSort (keyGe key) l
  refine ⟨?_, ?_, ?_, ?_⟩
  · rw [List.length_take]; exact min_le_left _ _
  · exact hsorted.sublist (List.take_sublist n _)
  · intro x hx y hy hyn
    have hys : y ∈ List.insertionSort (keyGe key) l := hperm.mem_iff.mpr hy
    have hsplit : y ∈ (List.insertionSort (keyGe key) l).take n ++
        (List.insertionSort (keyGe key) l).drop n := by
      rw [List.take_append_drop]; exact hys
    rcases List.mem_append.mp hsplit with h | h
    · exact absurd h hyn
    · exact sorted_take_drop hsorted n x hx y h
  · intro s
    refine ⟨((List.insertionSort (keyGe key) l).drop n).filter
      (fun e => decide (key e = s)), ?_⟩
    rw [← filter_insertionSort_keyEq key s l]
    conv_lhs => rw [← List.take_append_drop n (List.insertionSort (keyGe key) l)]
    rw [List.filter_append]

/-- C7: build_risk_categories_widget returns at most five medium and at
most five low entries; within each category the entries are in
descending score order; every returned entry's score is at least the
score of every same-category entry that was not returned; and for each
score value the returned entries with that score are an initial segment
of the same-category entries with that score in market-then-outcome
traversal order (the sort is stable). -/
theorem C7_risk_widget (markets_data : List Market) :
    (build_risk_categories_widget markets_data).medium_risk.length ≤ 5 ∧
    (build_risk_categories_widget markets_data).low_risk.length ≤ 5 ∧
    List.Pairwise (keyGe RiskEntry.score)
      (build_risk_categories_widget markets_data).medium_risk ∧
    List.Pairwise (keyGe RiskEntry.score)
      (build_risk_categories_widget markets_data).low_risk ∧
    (∀ x ∈ (build_risk_categories_widget markets_data).medium_risk,
      ∀ y ∈ (allRiskOutcomes markets_data).filter (fun o => o.risk_category == "medium"),
        y ∉ (build_risk_categories_widget markets_data).medium_risk →
          y.score ≤ x.score) ∧
    (∀ x ∈ (build_risk_categories_widget markets_data).low_risk,
      ∀ y ∈ (allRiskOutcomes markets_data).filter (fun o => o.risk_category == "low"),
        y ∉ (build_risk_categories_widget markets_data).low_risk →
          y.score ≤ x.score) ∧
    (∀ s : ℚ, ∃ t,
      (((allRiskOutcomes markets_data).filter
            (fun o => o.risk_category == "medium")).filter
          (fun e => decide (e.score = s)))
        = (((build_risk_categories_widget markets_data).medium_risk).filter
            (fun e => decide (e.score = s))) ++ t) ∧
    (∀ s : ℚ, ∃ t,
      (((allRiskOutcomes markets_data).filter
            (fun o => o.risk_category == "low")).filter
          (fun e => decide (e.score = s)))
        = (((build_risk_categories_widget markets_data).low_risk).filter
            (fun e => decide (e.score = s))) ++ t) := by
  have hm := take_sortDesc_spec RiskEntry.score
    ((allRiskOutcomes markets_data).filter (fun o => o.risk_category == "medium")) 5
  have hl := take_sortDesc_spec RiskEntry.score
    ((allRiskOutcomes markets_data).filter (fun o => o.risk_category == "low")) 5
  exact ⟨hm.1, hl.1, hm.2.1, hl.2.1, hm.2.2.1, hl.2.2.1, hm.2.2.2, hl.2.2.2⟩

/-- The element Python max picks is the first maximum: the scanned list
splits into a strictly smaller prefix, the winner, and a suffix that
never exceeds it. -/
theorem maxByRel_spec : ∀ (xs : List MappingItem) (best : MappingItem),
    ∃ pre post, best :: xs = pre ++ maxByRel best xs :: post ∧
      (∀ j ∈ pre, j.relevance_score < (maxByRel best xs).relevance_score) ∧
      (∀ j ∈ post, j.relevance_score ≤ (maxByRel best xs).relevance_score)
  | [], best => ⟨[], [], rfl, by simp, by simp⟩
  | x :: xs, best => by
    simp only [maxByRel]
    split_ifs with hbx
    · obtain ⟨pre, post, hdec, hpre, hpost⟩ := maxByRel_spec xs x
      have hxr : x.relevance_score ≤ (maxByRel x xs).relevance_score := by
        cases pre with
        | nil =>
          simp only [List.nil_append, List.cons.injEq] at hdec
          rw [← hdec.1]
        | cons p pre' =>
          simp only [List.cons_append, List.cons.injEq] at hdec
          have hp := hpre p (List.mem_cons_self p pre')
          rw [← hdec.1] at hp
          exact le_of_lt hp
      refine ⟨best :: pre, post, ?_, ?_, hpost⟩
      · rw [List.cons_append, ← hdec]
      · intro j hj
        rcases List.mem_cons.mp hj with hj | hj
        · rw [hj]; exact lt_of_lt_of_le hbx hxr
        · exact hpre j hj
    · obtain ⟨pre, post, hdec, hpre, hpost⟩ := maxByRel_spec xs best
      have hxb : x.relevance_score ≤ best.relevance_score := le_of_not_lt hbx
      cases pre with
      | nil =>
        simp only [List.nil_append, List.cons.injEq] at hdec
        refine ⟨[], x :: xs, ?_, by simp, ?_⟩
        · simp only [List.nil_append]
          rw [← hdec.1]
        · intro j hj
          rcases List.mem_cons.mp hj with hj | hj
          · rw [hj, ← hdec.1]; exact hxb
          · exact hpost j (hdec.2 ▸ hj)
      | cons p pre' =>
        simp only [List.cons_append, List.cons.injEq] at hdec
        refine ⟨best :: x :: pre', post, ?_, ?_, hpost⟩
        · simp only [List.cons_append]
          rw [← hdec.2]
        · intro j hj
          rcases List.mem_cons.mp hj with hj | hj
          · have hp := hpre p (List.mem_cons_self p pre')
            rw [← hdec.1] at hp
            rw [hj]
            exact hp
          · rcases List.mem_cons.mp hj with hj2 | hj2
            · rw [hj2]
              calc x.relevance_score ≤ best.relevance_score := hxb
              _ = p.relevance_score := by rw [hdec.1]
              _ < _ := hpre p (List.mem_cons_self p pre')
            · exact hpre j (List.mem_cons_of_mem p hj2)

theorem maxByRel_mem (xs : List MappingItem) (best : MappingItem) :
    maxByRel best xs ∈ best :: xs := by
  obtain ⟨pre, post, hdec, _, _⟩ := maxByRel_spec xs best
  rw [hdec]
  exact List.mem_append_right pre (List.mem_cons_self _ _)

theorem bestJudgments_market_id (news_mapping : List MappingItem) (k : String)
    (b : MappingItem)
    (h : (match news_mapping.filter (fun item => item.market_id == k) with
          | [] => none
          | g :: gs => some (maxByRel g gs)) = some b) :
    b.market_id = k := by
  rcases hg : news_mapping.filter (fun item => item.market_id == k) with _ | ⟨g, gs⟩
  · rw [hg] at h; cases h
  · rw [hg] at h
    have hb : maxByRel g gs = b := Option.some.inj h
    have hmem : b ∈ news_mapping.filter (fun item => item.market_id == k) := by
      rw [hg, ← hb]
      exact maxByRel_mem gs g
    have hp := (List.mem_filter.mp hmem).2
    exact eq_of_beq hp

theorem firstKeys_nodup : ∀ l : List String, (firstKeys l).Nodup
  | [] => List.nodup_nil
  | k :: ks => by
    rw [firstKeys, List.nodup_cons]
    constructor
    · intro hmem
      have := List.of_mem_filter hmem
      simp at this
    · exact (firstKeys_nodup ks).filter _

theorem map_market_id_filterMap_nodup (f : String → Option MappingItem)
    (hf : ∀ k b, f k = some b → b.market_id = k) :
    ∀ keys : List String, keys.Nodup →
      ((keys.filterMap f).map (fun b => b.market_id)).Nodup
  | [], _ => by simp
  | k :: ks, hnd => by
    have hnd' := List.nodup_cons.mp hnd
    cases hfk : f k with
    | none =>
      rw [List.filterMap_cons_none hfk]
      exact map_market_id_filterMap_nodup f hf ks hnd'.2
    | some b =>
      rw [List.filterMap_cons_some hfk, List.map_cons, List.nodup_cons]
      refine ⟨?_, map_market_id_filterMap_nodup f hf ks hnd'.2⟩
      intro hmem
      rw [List.mem_map] at hmem
      obtain ⟨b', hb', hmid⟩ := hmem
      rw [List.mem_filterMap] at hb'
      obtain ⟨k', hk', hfk'⟩ := hb'
      have h1 := hf k' b' hfk'
      have h2 := hf k b hfk
      apply hnd'.1
      rw [← h1, hmid, h2] at hk'
      exact hk'

theorem bestJudgments_ids_nodup (news_mapping : List MappingItem) :
    ((bestJudgments news_mapping).map (fun b => b.market_id)).Nodup :=
  map_market_id_filterMap_nodup _
    (fun k b h => bestJudgments_market_id news_mapping k b h)
    _ (firstKeys_nodup _)

theorem bestJudgments_spec (news_mapping : List MappingItem) :
    ∀ b ∈ bestJudgments news_mapping, ∃ pre post,
      news_mapping.filter (fun j => j.market_id == b.market_id) = pre ++ b :: post ∧
      (∀ j ∈ pre, j.relevance_score < b.relevance_score) ∧
      (∀ j ∈ post, j.relevance_score ≤ b.relevance_score) := by
  intro b hb
  unfold bestJudgments at hb
  rw [List.mem_filterMap] at hb
  obtain ⟨k, hk, hbk⟩ := hb
  have hmid : b.market_id = k := bestJudgments_market_id news_mapping k b hbk
  rw [hmid]
  rcases hg : news_mapping.filter (fun item => item.market_id == k) with _ | ⟨g, gs⟩
  · simp only [hg] at hbk
    cases hbk
  · simp only [hg] at hbk
    have hb2 : maxByRel g gs = b := Option.some.inj hbk
    rw [hg]
    obtain ⟨pre, post, hdec, hpre, hpost⟩ := maxByRel_spec gs g
    rw [hb2] at hdec hpre hpost
    exact ⟨pre, post, hdec, hpre, hpost⟩

theorem build_news_feed_widget_eq (news_mapping : List MappingItem)
    (markets_data : List Market) :
    build_news_feed_widget news_mapping markets_data
      = (((bestJudgments news_mapping).filterMap (fun b =>
          (markets_data.find? (fun m => m.market_id == b.market_id)).map
            (fun market => mkNewsEntry b market))).insertionSort
              (keyGe NewsEntry.relevance_score)).take 10 := by
  have h : ∀ keys : List String,
      keys.filterMap (fun market_id =>
        match news_mapping.filter (fun item => item.market_id == market_id) with
        | [] => none
        | g :: gs =>
          (markets_data.find? (fun m => m.market_id == market_id)).map
            (fun market => mkNewsEntry (maxByRel g gs) market))
      = (keys.filterMap (fun market_id =>
          match news_mapping.filter (fun item => item.market_id == market_id) with
          | [] => none
          | g :: gs => some (maxByRel g gs))).filterMap (fun b =>
            (markets_data.find? (fun m => m.market_id == b.market_id)).map
              (fun market => mkNewsEntry b market)) := by
    intro keys
    rw [List.filterMap_filterMap]
    apply List.filterMap_congr
    intro k _
    rcases hg : news_mapping.filter (fun item => item.market_id == k) with _ | ⟨g, gs⟩
    · simp [hg]
    · have hmid : (maxByRel g gs).market_id = k := by
        apply bestJudgments_market_id news_mapping k
        rw [hg]
      simp [hg, hmid]
  simp only [build_news_feed_widget, bestJudgments]
  rw [h]

/-- C8: build_news_feed_widget returns at most 10 entries, sorted
descending by relevance_score; the entries come, via a stable
descending sort and take 10, from one chosen judgment per distinct
market_id (so at most one entry per market), and each chosen judgment
is the first highest-relevance judgment of its market's group in
traversal order, paired with that market's question and url. -/
theorem C8_news_feed (news_mapping : List MappingItem) (markets_data : List Market) :
    (build_news_feed_widget news_mapping markets_data).length ≤ 10 ∧
    List.Pairwise (keyGe NewsEntry.relevance_score)
      (build_news_feed_widget news_mapping markets_data) ∧
    ∃ picks : List MappingItem,
      (picks.map (fun b => b.market_id)).Nodup ∧
      (∀ b ∈ picks, ∃ pre post,
        news_mapping.filter (fun j => j.market_id == b.market_id) = pre ++ b :: post ∧
        (∀ j ∈ pre, j.relevance_score < b.relevance_score) ∧
        (∀ j ∈ post, j.relevance_score ≤ b.relevance_score)) ∧
      build_news_feed_widget news_mapping markets_data
        = ((picks.filterMap (fun b =>
            (markets_data.find? (fun m => m.market_id == b.market_id)).map
              (fun market => mkNewsEntry b market))).insertionSort
                (keyGe NewsEntry.relevance_score)).take 10 := by
  have hspec := take_sortDesc_spec NewsEntry.relevance_score
    ((bestJudgments news_mapping).filterMap (fun b =>
      (markets_data.find? (fun m => m.market_id == b.market_id)).map
        (fun market => mkNewsEntry b market))) 10
  have heq := build_news_feed_widget_eq news_mapping markets_data
  refine ⟨?_, ?_, bestJudgments news_mapping, bestJudgments_ids_nodup news_mapping,
    bestJudgments_spec news_mapping, heq⟩
  · rw [heq]; exact hspec.1
  · rw [heq]; exact hspec.2.1

end Polymarket
